import Mathlib

/-
Verification development for the streamerphile client (src/web/static/app.js).

The client-side engine is shallowly embedded: JSON-like runtime values are
an inductive type, JS numbers are modelled as rationals plus NaN/Infinity
markers, DOM nodes are records keyed by stable ids with numeric identities,
and setTimeout-based behaviour is modelled by explicit timer queues that a
scheduler fires in (deadline, scheduling-order) order.
-/

namespace Streamerphile

/-- JSON-like runtime values as delivered by JSON.parse: null, booleans,
(finite) numbers, strings, arrays and objects.  JS undefined is represented
one level up as `Option JVal` with `none` for undefined. -/
inductive JVal where
  | jnull
  | jbool (b : Bool)
  | jnum (q : Rat)
  | jstr (s : String)
  | jarr (xs : List JVal)
  | jobj (fields : List (String × JVal))
deriving Repr

/-- A JS number: NaN, signed infinity, or a finite value (modelled as a
rational; the claims under study do not depend on binary floating point). -/
inductive JSNum where
  | nan
  | inf (pos : Bool)
  | fin (q : Rat)
deriving Repr, DecidableEq

/-- Whether a JS number passes Number.isFinite. -/
def JSNum.finite : JSNum → Bool
  | .fin _ => true
  | _ => false

/-- Math.trunc on a finite value: truncation toward zero. -/
def jsTrunc (q : Rat) : Int :=
  if 0 ≤ q then Rat.floor q else Rat.ceil q

/-- Math.trunc lifted to JS numbers: defined exactly on finite values. -/
def JSNum.truncVal : JSNum → Option Int
  | .fin q => some (jsTrunc q)
  | _ => none

/-- The whitespace characters trimmed by the JS ToNumber conversion. -/
def jsWhitespace (c : Char) : Bool :=
  c = ' ' || c = '\t' || c = '\n' || c = '\r' || c = '\x0b' || c = '\x0c'

/-- Value of a list of decimal digit characters. -/
def digitsVal (ds : List Char) : Nat :=
  ds.foldl (fun a c => a * 10 + (c.toNat - 48)) 0

/-- Decimal-literal part of the JS Number(string) builtin: digits with an
optional fraction and exponent. -/
def parseDecimal (cs : List Char) : Option Rat :=
  let ip := cs.takeWhile Char.isDigit
  let r1 := cs.dropWhile Char.isDigit
  let fr :=
    match r1 with
    | '.' :: rest => (rest.takeWhile Char.isDigit, rest.dropWhile Char.isDigit)
    | _ => ([], r1)
  let fp := fr.1
  let r2 := fr.2
  if ip.isEmpty && fp.isEmpty then none
  else
    let base : Rat := ((digitsVal (ip ++ fp) : Int) : Rat) / ((10 : Rat) ^ fp.length)
    match r2 with
    | [] => some base
    | e :: rest =>
      if e = 'e' || e = 'E' then
        let es :=
          match rest with
          | '-' :: r => (true, r)
          | '+' :: r => (false, r)
          | _ => (false, rest)
        let edigits := es.2.takeWhile Char.isDigit
        let erest := es.2.dropWhile Char.isDigit
        if edigits.isEmpty || !erest.isEmpty then none
        else
          let ev : Int := if es.1 then -(digitsVal edigits : Int) else (digitsVal edigits : Int)
          some (base * (10 : Rat) ^ ev)
      else none

/-- Model of the JS builtin Number(string): trims whitespace, maps the empty
remainder to 0, recognises an optional sign, Infinity and decimal literals,
and maps everything else to NaN.  (Hex/octal/binary literal forms are not
modelled; no code path under study feeds them in.) -/
def strToNumber (s : String) : JSNum :=
  let cs := ((s.toList.dropWhile jsWhitespace).reverse.dropWhile jsWhitespace).reverse
  match cs with
  | [] => .fin 0
  | _ =>
    let sb :=
      match cs with
      | '-' :: rest => (true, rest)
      | '+' :: rest => (false, rest)
      | _ => (false, cs)
    if sb.2 = "Infinity".toList then .inf (!sb.1)
    else
      match parseDecimal sb.2 with
      | some q => .fin (if sb.1 then -q else q)
      | none => .nan

/-- Model of the JS builtin Number(value) on defined values.  Arrays convert
through their joined string form: [] gives 0, a one-element array converts
like its element (a boolean element gives NaN since "true"/"false" are not
numeric), longer arrays give NaN because the joined string contains a comma;
objects give NaN. -/
def toNumberV : JVal → JSNum
  | .jnull => .fin 0
  | .jbool b => .fin (if b then 1 else 0)
  | .jnum q => .fin q
  | .jstr s => strToNumber s
  | .jobj _ => .nan
  | .jarr [] => .fin 0
  | .jarr [.jbool _] => .nan
  | .jarr [x] => toNumberV x
  | .jarr (_ :: _ :: _) => .nan

/-- Number(x) with undefined mapped to NaN. -/
def toNumber : Option JVal → JSNum
  | none => .nan
  | some v => toNumberV v

/-- clampInt from app.js: empty string, null and undefined give null; then
a non-finite Number(x) gives null; otherwise Math.trunc(Number(x)). -/
def clampInt : Option JVal → Option Int
  | none => none
  | some .jnull => none
  | some (.jstr s) => if s = "" then none else (toNumberV (.jstr s)).truncVal
  | some v => (toNumberV v).truncVal

/-- JS truthiness of a defined value. -/
def truthy : JVal → Bool
  | .jnull => false
  | .jbool b => b
  | .jnum q => decide (q ≠ 0)
  | .jstr s => decide (s ≠ "")
  | .jarr _ => true
  | .jobj _ => true

/-- JS truthiness with undefined mapped to false. -/
def truthyOpt : Option JVal → Bool
  | none => false
  | some v => truthy v

/-- Property access on a JSON value: objects look their field up (last
occurrence wins, as JSON.parse keeps the last duplicate key); every other
value yields undefined. -/
def getField (v : JVal) (k : String) : Option JVal :=
  match v with
  | .jobj fs => (fs.reverse.find? (fun p => p.1 == k)).map (fun p => p.2)
  | _ => none

/-- The filter record of the client state. -/
structure Filters where
  verifiedOnly : Bool
  minViewers : Option Int
  maxViewers : Option Int
  minFollowers : Option Int
  maxFollowers : Option Int
deriving Repr, DecidableEq

/-- The base filter record used when nothing valid is stored. -/
def baseFilters : Filters := ⟨false, none, none, none, none⟩

/-- Values of JS typeof "object" (arrays included; null is caught earlier by
the truthiness test in normalizeFilters). -/
def isObjectType : JVal → Bool
  | .jarr _ => true
  | .jobj _ => true
  | _ => false

/-- normalizeFilters from app.js: a falsy or non-object input yields the base
record; otherwise each flag or numeric field is coerced from the raw field. -/
def normalizeFilters (raw : JVal) : Filters :=
  if truthy raw = false ∨ isObjectType raw = false then baseFilters
  else
    ⟨truthyOpt (getField raw "verifiedOnly"),
      clampInt (getField raw "minViewers"),
      clampInt (getField raw "maxViewers"),
      clampInt (getField raw "minFollowers"),
      clampInt (getField raw "maxFollowers")⟩

/-- The raw cookie slot as getJsonCookie sees it: absent (getCookie returned
null, or the value is the empty string, which is falsy), present but not
valid JSON (JSON.parse throws), or valid JSON.  JSON.parse itself is a
builtin and is modelled abstractly by this split. -/
inductive CookieVal where
  | absent
  | invalid
  | valid (v : JVal)
deriving Repr

/-- getJsonCookie from app.js: the fallback on an absent value or a parse
failure, the parsed value otherwise. -/
def getJsonCookie (c : CookieVal) (fallback : JVal) : JVal :=
  match c with
  | .absent => fallback
  | .invalid => fallback
  | .valid v => v

/-- An ignored-user entry: unique by id; the display name may be unknown. -/
structure IgnoredUser where
  id : String
  name : Option String
deriving Repr, DecidableEq

/-- JS falsiness of a nullable name field (null, undefined-as-none, or the
empty string). -/
def nameFalsy : Option String → Bool
  | none => true
  | some s => decide (s = "")

/-- Display form of a rational in the model of the JS String() builtin
(integers print exactly; non-integers use the num/den form, an
approximation of decimal printing that no claim depends on). -/
def ratToDisplay (q : Rat) : String :=
  if q.den = 1 then toString q.num else toString q

mutual

/-- Model of the JS builtin String(value) on defined values. -/
def jvalToString : JVal → String
  | .jnull => "null"
  | .jbool b => if b then "true" else "false"
  | .jnum q => ratToDisplay q
  | .jstr s => s
  | .jarr xs => joinElems xs
  | .jobj _ => "[object Object]"

/-- Array.prototype.toString: elements joined with commas. -/
def joinElems : List JVal → String
  | [] => ""
  | [x] => elemStr x
  | x :: y :: xs => elemStr x ++ "," ++ joinElems (y :: xs)

/-- An array element's contribution to the joined string: null prints empty. -/
def elemStr : JVal → String
  | .jnull => ""
  | .jbool b => if b then "true" else "false"
  | .jnum q => ratToDisplay q
  | .jstr s => s
  | .jarr xs => joinElems xs
  | .jobj _ => "[object Object]"

end

/-- Nullish coalescing over possibly-undefined values: undefined and null
fall through to the right operand. -/
def nullish (x y : Option JVal) : Option JVal :=
  match x with
  | none => y
  | some .jnull => y
  | some v => some v

/-- One item of the raw ignored-users input, as the first pass of
normalizeIgnored reads it: strings and numbers become id-only entries;
object-typed items take id from id/user_id and name from name/user_name and
are dropped when the id is nullish or blank; null and booleans are dropped. -/
def mkEntryFromItem (item : JVal) : Option IgnoredUser :=
  match item with
  | .jstr s => some ⟨s, none⟩
  | .jnum q => some ⟨ratToDisplay q, none⟩
  | .jnull => none
  | .jbool _ => none
  | _ =>
    let idv := nullish (getField item "id") (getField item "user_id")
    let namev := nullish (getField item "name") (getField item "user_name")
    match idv with
    | none => none
    | some .jnull => none
    | some v =>
      if (jvalToString v).trim = "" then none
      else
        let nm : Option String :=
          match namev with
          | some w => if truthy w then some (jvalToString w) else none
          | none => none
        some ⟨jvalToString v, nm⟩

/-- One step of the Map-based dedup in normalizeIgnored: a fresh id is
appended; an id already present only has a falsy name filled in from a
truthy incoming name. -/
def dedupStep (acc : List IgnoredUser) (u : IgnoredUser) : List IgnoredUser :=
  if acc.any (fun v => v.id == u.id) then
    acc.map (fun v =>
      if v.id == u.id && nameFalsy v.name && !nameFalsy u.name then ⟨v.id, u.name⟩ else v)
  else acc ++ [u]

/-- The dedup pass of normalizeIgnored (insertion-ordered Map keyed by id). -/
def dedupIgnored (l : List IgnoredUser) : List IgnoredUser :=
  l.foldl dedupStep []

/-- normalizeIgnored from app.js: non-arrays yield the empty list; arrays are
read item by item and then deduplicated by id. -/
def normalizeIgnored (raw : JVal) : List IgnoredUser :=
  match raw with
  | .jarr items => dedupIgnored (items.filterMap mkEntryFromItem)
  | _ => []

/-- In-place fill of the first entry with the given id: its name is set to
sname exactly when its current name is falsy and sname is truthy (sname is
never the empty string, see upsertIgnoredUser). -/
def fillFirst (l : List IgnoredUser) (id : String) (sname : Option String) :
    List IgnoredUser :=
  match l with
  | [] => []
  | u :: us =>
    if u.id = id then
      (if nameFalsy u.name && sname.isSome then ⟨u.id, sname⟩ else u) :: us
    else u :: fillFirst us id sname

/-- Truthiness coercion of an incoming name (`name ? String(name) : null`):
the empty string coerces to null. -/
def normName : Option String → Option String
  | some s => if s = "" then none else some s
  | none => none

/-- upsertIgnoredUser from app.js over the ignored-users list: an entry found
by id only has a falsy name filled in from a truthy incoming name; otherwise
a new entry is appended. -/
def upsertIgnoredUser (l : List IgnoredUser) (id : String) (name : Option String) :
    List IgnoredUser :=
  let sname := normName name
  if l.any (fun u => u.id == id) then fillFirst l id sname
  else l ++ [⟨id, sname⟩]

/-- backfillIgnoredNamesFromPayload from app.js, over the payload flattened
to (user_id, user_name) pairs of its streams: each pair fills the name of the
matching entry when that name is falsy and the incoming user_name is truthy.
(The JS routine indexes entries through a Map keyed by id; the ignored list
is deduplicated by id on every write, under which the Map lookup and the
per-entry map below agree.) -/
def backfillIgnoredNames (l : List IgnoredUser) (ws : List (String × String)) :
    List IgnoredUser :=
  ws.foldl
    (fun acc p =>
      if p.2 = "" then acc
      else acc.map (fun u =>
        if u.id == p.1 && nameFalsy u.name then ⟨u.id, some p.2⟩ else u))
    l

/-! Helper lemmas and the theorems for the preference-state claims. -/

lemma truncVal_none_iff (n : JSNum) : n.truncVal = none ↔ n.finite = false := by
  cases n <;> simp [JSNum.truncVal, JSNum.finite]

/-- C6: numeric filter parsing returns unset (null) exactly when the input is
empty, null, undefined, or converts to a non-finite number; such input never
normalizes to 0; any other input yields Math.trunc of its Number conversion. -/
theorem clampInt_spec (x : Option JVal) :
    (clampInt x = none ↔
      x = none ∨ x = some .jnull ∨ x = some (.jstr "") ∨ (toNumber x).finite = false) ∧
    ((x = none ∨ x = some .jnull ∨ x = some (.jstr "") ∨ (toNumber x).finite = false) →
      clampInt x ≠ some 0) ∧
    (¬(x = none ∨ x = some .jnull ∨ x = some (.jstr "")) →
      clampInt x = (toNumber x).truncVal) := by
  have hmain : (clampInt x = none ↔
      x = none ∨ x = some .jnull ∨ x = some (.jstr "") ∨ (toNumber x).finite = false) ∧
      (¬(x = none ∨ x = some .jnull ∨ x = some (.jstr "")) →
        clampInt x = (toNumber x).truncVal) := by
    obtain _ | v := x
    · simp [clampInt, toNumber, JSNum.finite]
    · cases v with
      | jnull => simp [clampInt, toNumber, toNumberV, JSNum.finite]
      | jbool b => simp [clampInt, toNumber, truncVal_none_iff]
      | jnum q => simp [clampInt, toNumber, truncVal_none_iff]
      | jarr xs => simp [clampInt, toNumber, truncVal_none_iff]
      | jobj fs => simp [clampInt, toNumber, truncVal_none_iff]
      | jstr s =>
        by_cases hs : s = ""
        · subst hs
          simp [clampInt, toNumber, toNumberV, JSNum.finite]
        · simp [clampInt, hs, toNumber, truncVal_none_iff]
  refine ⟨hmain.1, ?_, hmain.2⟩
  intro h
  rw [hmain.1.mpr h]
  exact fun hc => Option.noConfusion hc

/-- Pointwise relation for an in-place name fill with a fixed new name: the
id is kept and the name either stays or goes from falsy to the (present) new
name. -/
def FillsTo (sname : Option String) (u v : IgnoredUser) : Prop :=
  v.id = u.id ∧
    (v.name = u.name ∨ (nameFalsy u.name = true ∧ v.name = sname ∧ sname.isSome = true))

/-- Pointwise relation for any name backfill: the id is kept and the name
either stays or goes from falsy to non-falsy. -/
def NameKeptOrFilled (u v : IgnoredUser) : Prop :=
  v.id = u.id ∧ (v.name = u.name ∨ (nameFalsy u.name = true ∧ nameFalsy v.name = false))

lemma fillsTo_refl (sn : Option String) (u : IgnoredUser) : FillsTo sn u u :=
  ⟨rfl, Or.inl rfl⟩

lemma fillFirst_fillsTo (l : List IgnoredUser) (id : String) (sn : Option String) :
    List.Forall₂ (FillsTo sn) l (fillFirst l id sn) := by
  induction l with
  | nil => exact List.Forall₂.nil
  | cons u us ih =>
    by_cases h : u.id = id
    · simp only [fillFirst, if_pos h]
      refine List.Forall₂.cons ?_ (List.forall₂_same.mpr fun x _ => fillsTo_refl sn x)
      by_cases hc : (nameFalsy u.name && sn.isSome) = true
      · rw [if_pos hc]
        rw [Bool.and_eq_true] at hc
        exact ⟨rfl, Or.inr ⟨hc.1, rfl, hc.2⟩⟩
      · rw [if_neg hc]; exact fillsTo_refl sn u
    · simp only [fillFirst, if_neg h]
      exact List.Forall₂.cons (fillsTo_refl sn u) ih

lemma fillFirst_ids (l : List IgnoredUser) (id : String) (sn : Option String) :
    (fillFirst l id sn).map IgnoredUser.id = l.map IgnoredUser.id := by
  induction l with
  | nil => rfl
  | cons u us ih =>
    by_cases h : u.id = id
    · simp only [fillFirst, if_pos h, List.map_cons]
      congr 1
      by_cases hc : nameFalsy u.name && sn.isSome
      · rw [if_pos hc]
      · rw [if_neg hc]
    · simp only [fillFirst, if_neg h, List.map_cons, ih]

lemma nkf_refl (u : IgnoredUser) : NameKeptOrFilled u u := ⟨rfl, Or.inl rfl⟩

lemma nkf_trans {u v w : IgnoredUser} (h1 : NameKeptOrFilled u v)
    (h2 : NameKeptOrFilled v w) : NameKeptOrFilled u w := by
  obtain ⟨hid1, hn1⟩ := h1
  obtain ⟨hid2, hn2⟩ := h2
  refine ⟨hid2.trans hid1, ?_⟩
  rcases hn1 with h | ⟨hf, hnf⟩
  · rcases hn2 with h2 | ⟨hf2, hnf2⟩
    · exact Or.inl (h2.trans h)
    · exact Or.inr ⟨h ▸ hf2, hnf2⟩
  · rcases hn2 with h2 | ⟨hf2, hnf2⟩
    · exact Or.inr ⟨hf, h2 ▸ hnf⟩
    · exact absurd hf2 (by simp [hnf])

lemma forall2_nkf_trans {a b c : List IgnoredUser}
    (h1 : List.Forall₂ NameKeptOrFilled a b) (h2 : List.Forall₂ NameKeptOrFilled b c) :
    List.Forall₂ NameKeptOrFilled a c := by
  induction h1 generalizing c with
  | nil => cases h2; exact List.Forall₂.nil
  | cons hp _ ih =>
    cases h2 with
    | cons hq hrest => exact List.Forall₂.cons (nkf_trans hp hq) (ih hrest)

lemma backfill_nkf (l : List IgnoredUser) (ws : List (String × String)) :
    List.Forall₂ NameKeptOrFilled l (backfillIgnoredNames l ws) := by
  induction ws generalizing l with
  | nil => exact List.forall₂_same.mpr fun x _ => nkf_refl x
  | cons p ps ih =>
    have hstep : List.Forall₂ NameKeptOrFilled l
        (if p.2 = "" then l
         else l.map (fun u =>
           if u.id == p.1 && nameFalsy u.name then ⟨u.id, some p.2⟩ else u)) := by
      by_cases hp : p.2 = ""
      · rw [if_pos hp]; exact List.forall₂_same.mpr fun x _ => nkf_refl x
      · rw [if_neg hp]
        rw [List.forall₂_map_right_iff]
        refine List.forall₂_same.mpr fun u _ => ?_
        by_cases hc : (u.id == p.1 && nameFalsy u.name) = true
        · rw [if_pos hc]
          rw [Bool.and_eq_true] at hc
          exact ⟨rfl, Or.inr ⟨hc.2, by simp [nameFalsy, hp]⟩⟩
        · rw [if_neg hc]; exact nkf_refl u
    have htail := ih (l := if p.2 = "" then l
      else l.map (fun u =>
        if u.id == p.1 && nameFalsy u.name then ⟨u.id, some p.2⟩ else u))
    refine forall2_nkf_trans hstep ?_
    simpa [backfillIgnoredNames] using htail

lemma dedupStep_pres (acc : List IgnoredUser) (x : IgnoredUser) (i : String)
    (h : ∃ v ∈ acc, v.id = i ∧ nameFalsy v.name = false) :
    ∃ v ∈ dedupStep acc x, v.id = i ∧ nameFalsy v.name = false := by
  obtain ⟨v, hv, hvi, hvn⟩ := h
  unfold dedupStep
  by_cases hany : acc.any (fun w => w.id == x.id)
  · rw [if_pos hany]
    refine ⟨_, List.mem_map_of_mem _ hv, ?_⟩
    rw [show (if v.id == x.id && nameFalsy v.name && !nameFalsy x.name then
        (⟨v.id, x.name⟩ : IgnoredUser) else v) = v from ?_]
    · exact ⟨hvi, hvn⟩
    · rw [if_neg]; simp [hvn]
  · rw [if_neg hany]
    exact ⟨v, List.mem_append_left _ hv, hvi, hvn⟩

lemma dedupStep_ins (acc : List IgnoredUser) (x : IgnoredUser)
    (hx : nameFalsy x.name = false) :
    ∃ v ∈ dedupStep acc x, v.id = x.id ∧ nameFalsy v.name = false := by
  unfold dedupStep
  by_cases hany : acc.any (fun w => w.id == x.id)
  · rw [if_pos hany]
    obtain ⟨w, hw, hwid⟩ := List.any_eq_true.mp hany
    have hwid' : w.id = x.id := by simpa using hwid
    by_cases hwf : nameFalsy w.name
    · refine ⟨_, List.mem_map_of_mem _ hw, ?_⟩
      rw [if_pos (by simp [hwid', hwf, hx])]
      exact ⟨hwid', hx⟩
    · refine ⟨_, List.mem_map_of_mem _ hw, ?_⟩
      rw [if_neg (by simp [hwf])]
      exact ⟨hwid', by simpa using hwf⟩
  · rw [if_neg hany]
    exact ⟨x, List.mem_append_right _ (List.mem_singleton_self x), rfl, hx⟩

lemma dedup_fold_pres (rest : List IgnoredUser) (acc : List IgnoredUser) (i : String)
    (h : ∃ v ∈ acc, v.id = i ∧ nameFalsy v.name = false) :
    ∃ v ∈ rest.foldl dedupStep acc, v.id = i ∧ nameFalsy v.name = false := by
  induction rest generalizing acc with
  | nil => exact h
  | cons u us ih => exact ih _ (dedupStep_pres acc u i h)

lemma dedup_keeps_named_gen :
    ∀ (es acc : List IgnoredUser) (i : String),
      (∃ u ∈ es, u.id = i ∧ nameFalsy u.name = false) →
      ∃ v ∈ es.foldl dedupStep acc, v.id = i ∧ nameFalsy v.name = false
  | [], _, _, h => absurd h (by simp)
  | u :: us, acc, i, h => by
    obtain ⟨w, hw, hwi, hwn⟩ := h
    rcases List.mem_cons.mp hw with heq | hmem
    · subst heq
      obtain ⟨v, hv, hvi, hvn⟩ := dedupStep_ins acc w hwn
      exact dedup_fold_pres us _ i ⟨v, hv, hvi.trans hwi, hvn⟩
    · exact dedup_keeps_named_gen us (dedupStep acc u) i ⟨w, hmem, hwi, hwn⟩

lemma dedup_keeps_named (es : List IgnoredUser) (i : String)
    (h : ∃ u ∈ es, u.id = i ∧ nameFalsy u.name = false) :
    ∃ v ∈ dedupIgnored es, v.id = i ∧ nameFalsy v.name = false :=
  dedup_keeps_named_gen es [] i h

/-- C7: on an ignored-users list already containing the id, an add keeps the
id sequence unchanged and pointwise either keeps each name or fills a falsy
one with the (present) coerced new name; the payload name backfill and the
normalization dedup likewise never replace a non-falsy name. -/
theorem ignore_merge_spec :
    (∀ (l : List IgnoredUser) (id : String) (nm : Option String),
      (∃ u ∈ l, u.id = id) →
      (upsertIgnoredUser l id nm).map IgnoredUser.id = l.map IgnoredUser.id ∧
        List.Forall₂ (FillsTo (normName nm)) l (upsertIgnoredUser l id nm)) ∧
    (∀ (l : List IgnoredUser) (ws : List (String × String)),
      List.Forall₂ NameKeptOrFilled l (backfillIgnoredNames l ws)) ∧
    (∀ (es : List IgnoredUser) (i : String),
      (∃ u ∈ es, u.id = i ∧ nameFalsy u.name = false) →
      ∃ v ∈ dedupIgnored es, v.id = i ∧ nameFalsy v.name = false) := by
  refine ⟨?_, backfill_nkf, dedup_keeps_named⟩
  intro l id nm hid
  have hany : l.any (fun u => u.id == id) = true := by
    obtain ⟨u, hu, hui⟩ := hid
    exact List.any_eq_true.mpr ⟨u, hu, by simpa using hui⟩
  unfold upsertIgnoredUser
  rw [if_pos hany]
  exact ⟨fillFirst_ids l id (normName nm), fillFirst_fillsTo l id (normName nm)⟩

/-- Witness for ignore_merge_spec at a concrete list and add. -/
theorem ignore_merge_spec_witness :
    (upsertIgnoredUser [⟨"7", none⟩] "7" (some "Ann")).map IgnoredUser.id =
      ([⟨"7", none⟩] : List IgnoredUser).map IgnoredUser.id ∧
    ∃ v ∈ dedupIgnored [⟨"7", none⟩, ⟨"7", some "Ann"⟩],
      v.id = "7" ∧ nameFalsy v.name = false := by
  refine ⟨(ignore_merge_spec.1 [⟨"7", none⟩] "7" (some "Ann") ?_).1,
    ignore_merge_spec.2.2 [⟨"7", none⟩, ⟨"7", some "Ann"⟩] "7" ?_⟩
  · exact ⟨⟨"7", none⟩, by simp, rfl⟩
  · exact ⟨⟨"7", some "Ann"⟩, by simp, rfl, by decide⟩

/-- Witness for clampInt_spec at a concrete fractional string input. -/
theorem clampInt_spec_witness :
    clampInt (some (.jstr "12.9")) = (toNumber (some (.jstr "12.9"))).truncVal :=
  (clampInt_spec (some (.jstr "12.9"))).2.2 (by simp)

lemma dedupStep_ids_nodup (acc : List IgnoredUser) (u : IgnoredUser)
    (h : ((acc.map IgnoredUser.id)).Nodup) :
    ((dedupStep acc u).map IgnoredUser.id).Nodup := by
  unfold dedupStep
  by_cases hany : acc.any (fun v => v.id == u.id)
  · rw [if_pos hany]
    have hids : (acc.map (fun v =>
        if v.id == u.id && nameFalsy v.name && !nameFalsy u.name then
          (⟨v.id, u.name⟩ : IgnoredUser) else v)).map IgnoredUser.id =
        acc.map IgnoredUser.id := by
      rw [List.map_map]
      refine List.map_congr_left fun v _ => ?_
      by_cases hc : v.id == u.id && nameFalsy v.name && !nameFalsy u.name
      · simp [Function.comp, hc]
      · simp [Function.comp, hc]
    rw [hids]; exact h
  · rw [if_neg hany]
    have hnotin : u.id ∉ acc.map IgnoredUser.id := by
      intro hmem
      obtain ⟨v, hv, hvid⟩ := List.mem_map.mp hmem
      exact hany (List.any_eq_true.mpr ⟨v, hv, by simpa using hvid⟩)
    rw [List.map_append, List.nodup_append]
    refine ⟨h, List.nodup_singleton _, fun a ha hmem => ?_⟩
    rw [List.map_singleton, List.mem_singleton] at hmem
    exact hnotin (hmem ▸ ha)

lemma dedup_fold_ids_nodup (l : List IgnoredUser) (acc : List IgnoredUser)
    (h : (acc.map IgnoredUser.id).Nodup) :
    ((l.foldl dedupStep acc).map IgnoredUser.id).Nodup := by
  induction l generalizing acc with
  | nil => exact h
  | cons u us ih => exact ih _ (dedupStep_ids_nodup acc u h)

lemma normalizeIgnored_nodup (raw : JVal) :
    ((normalizeIgnored raw).map IgnoredUser.id).Nodup := by
  unfold normalizeIgnored
  cases raw with
  | jarr items => exact dedup_fold_ids_nodup _ [] (by simp)
  | jnull => simp
  | jbool b => simp
  | jnum q => simp
  | jstr s => simp
  | jobj fs => simp

/-- C10: boot never fails on a corrupt persisted store: getJsonCookie yields
the caller-supplied fallback on an absent or invalid value; normalizeIgnored
coerces any JSON shape into a list of id-deduplicated entries; and
normalizeFilters coerces any non-object shape into the base filter record
(object shapes are coerced field by field through clampInt, see
normalizeFilters). -/
theorem boot_robust_spec :
    (∀ fb : JVal, getJsonCookie .absent fb = fb) ∧
    (∀ fb : JVal, getJsonCookie .invalid fb = fb) ∧
    (∀ raw : JVal, ((normalizeIgnored raw).map IgnoredUser.id).Nodup) ∧
    (∀ s : String, normalizeFilters (.jstr s) = baseFilters) ∧
    (∀ b : Bool, normalizeFilters (.jbool b) = baseFilters) ∧
    (∀ q : Rat, normalizeFilters (.jnum q) = baseFilters) ∧
    normalizeFilters .jnull = baseFilters := by
  refine ⟨fun _ => rfl, fun _ => rfl, normalizeIgnored_nodup, ?_, ?_, ?_, ?_⟩
  · intro s; simp [normalizeFilters, isObjectType]
  · intro b; simp [normalizeFilters, isObjectType]
  · intro q; simp [normalizeFilters, isObjectType]
  · simp [normalizeFilters, truthy]

/-!
Refresh Controller (refreshStreams / _refreshStreamsOnce).

The controller state is the pair of flags refreshInFlight / refreshQueued
plus the preference snapshot _refreshStreamsOnce reads when it starts: the
followed-game-id list, whose emptiness decides its early return
(app.js:696-700, no network call when no game is followed), and an abstract
value standing for the filter settings and ignored set that parameterize
the request URL.  `fetches` records, oldest first, the snapshot each issued
/api/streams network call was started with; `active` is a ghost count of
such network calls outstanding, where a call is counted from its issue
until its refresh execution completes — the execution awaits the fetch, so
the network call is done (resolved or rejected) by the time the finally
block runs, and only this controller issues stream fetches.  Because the
scheduler is single-threaded, a run is a list of events (calls to
refreshStreams, preference writes) processed between the start and the
completion of the active refresh; rcComplete is the try/finally tail of
refreshStreams, which runs whether the awaited body resolved or threw
(including the updateMasonryColumns ReferenceError of masonry_bug_eval,
thrown only after any fetch has completed).
-/

/-- The preference snapshot _refreshStreamsOnce reads at its start: the
followed-game-id list and an abstract stand-in for the filter settings and
ignored set. -/
structure Prefs where
  followed : List String
  filters : Nat
deriving Repr, DecidableEq

/-- Refresh Controller state. -/
structure RC where
  inFlight : Bool
  queued : Bool
  prefs : Prefs
  fetches : List Prefs
  active : Nat
deriving Repr, DecidableEq

/-- refreshStreams: an executing refresh only records the pending flag;
otherwise the in-flight flag rises and _refreshStreamsOnce starts: with an
empty followed-game set it renders the placeholder and returns without any
network call (app.js:696-700); otherwise it issues one fetch that reads the
current preference snapshot. -/
def rcCall (s : RC) : RC :=
  if s.inFlight then { s with queued := true }
  else
    let s1 : RC := { s with inFlight := true }
    if s1.prefs.followed.isEmpty then s1
    else { s1 with active := s1.active + 1, fetches := s1.fetches ++ [s1.prefs] }

/-- The finally-block of refreshStreams at completion of the executing
refresh: its fetch (if it issued one) has been awaited, so no network call
remains outstanding; the in-flight flag drops and a pending flag
immediately restarts a call. -/
def rcComplete (s : RC) : RC :=
  let s1 : RC := { s with inFlight := false, active := 0 }
  if s1.queued then rcCall { s1 with queued := false } else s1

/-- Events that can happen while a refresh is executing: further calls to
refreshStreams (from SSE pushes, mutations, the debounce timer) and writes
to the preference state (filter edits, follow/unfollow, ignore changes). -/
inductive RcEv where
  | call
  | setPrefs (p : Prefs)
deriving Repr, DecidableEq

/-- One scheduler event. -/
def rcStep (s : RC) (e : RcEv) : RC :=
  match e with
  | .call => rcCall s
  | .setPrefs p => { s with prefs := p }

/-- A run of events. -/
def rcRun (s : RC) (evs : List RcEv) : RC := evs.foldl rcStep s

/-- Whether the event list contains at least one refresh call. -/
def hasCall (evs : List RcEv) : Bool :=
  evs.any (fun e => match e with | .call => true | .setPrefs _ => false)

/-- The preference snapshot after a run. -/
def finalPrefs (p : Prefs) (evs : List RcEv) : Prefs :=
  evs.foldl (fun a e => match e with | .setPrefs q => q | .call => a) p

lemma rcRun_inFlight (evs : List RcEv) :
    ∀ (s : RC), s.inFlight = true →
    rcRun s evs = { s with queued := s.queued || hasCall evs,
                           prefs := finalPrefs s.prefs evs } := by
  induction evs with
  | nil => intro s _; simp [rcRun, hasCall, finalPrefs]
  | cons e es ih =>
    intro s hs
    cases e with
    | call =>
      have hstep : rcStep s .call = { s with queued := true } := by
        simp [rcStep, rcCall, hs]
      calc rcRun s (.call :: es)
          = rcRun (rcStep s .call) es := rfl
        _ = _ := by
            rw [hstep, ih _ (by simp [hs])]
            simp [hasCall, finalPrefs]
    | setPrefs p =>
      calc rcRun s (.setPrefs p :: es)
          = rcRun (rcStep s (.setPrefs p)) es := rfl
        _ = _ := by
            rw [show rcStep s (.setPrefs p) = { s with prefs := p } from rfl,
              ih _ (by simp [hs])]
            simp [hasCall, finalPrefs]

/-- Counterexample to C2 as stated: with a stream fetch in flight for
followed game 33214, unfollowing that last game writes an empty followed
set and calls refresh() (one call while executing, hasCall below); when the
active refresh completes, the follow-up refresh starts (inFlight is true
again) but issues zero additional network fetches — _refreshStreamsOnce
returns early on the empty followed set — not exactly one as claimed. -/
theorem refresh_collapse_counterexample :
    hasCall [RcEv.setPrefs ⟨[], 0⟩, RcEv.call] = true ∧
    (rcComplete (rcRun ⟨true, false, ⟨["33214"], 0⟩, [], 1⟩
      [.setPrefs ⟨[], 0⟩, .call])).fetches = [] ∧
    (rcComplete (rcRun ⟨true, false, ⟨["33214"], 0⟩, [], 1⟩
      [.setPrefs ⟨[], 0⟩, .call])).inFlight = true ∧
    (rcComplete (rcRun ⟨true, false, ⟨["33214"], 0⟩, [], 1⟩
      [.setPrefs ⟨[], 0⟩, .call])).active = 0 := by decide

/-- C2 amended: while one refresh is executing, any number of further
refresh calls issue no fetch and collapse into the single pending flag, and
the active network call stays the only one at every intermediate point.
When the active refresh completes, exactly one follow-up refresh starts
immediately and the pending flag clears; that follow-up issues exactly one
additional network fetch — reading the filter and followed-set snapshot
current at the moment it starts — when the followed-game set current at
that moment is nonempty, and issues no network call when that set is empty
(the early return of _refreshStreamsOnce, e.g. after unfollowing the last
game mid-flight). -/
theorem refresh_collapse_spec (s : RC) (evs : List RcEv)
    (hin : s.inFlight = true) (hq : s.queued = false) (ha : s.active = 1)
    (hcall : hasCall evs = true) :
    (rcRun s evs).fetches = s.fetches ∧
    (rcRun s evs).queued = true ∧
    (∀ pre suf : List RcEv, evs = pre ++ suf → (rcRun s pre).active = 1) ∧
    (rcComplete (rcRun s evs)).inFlight = true ∧
    (rcComplete (rcRun s evs)).queued = false ∧
    ((finalPrefs s.prefs evs).followed ≠ [] →
      (rcComplete (rcRun s evs)).fetches = s.fetches ++ [finalPrefs s.prefs evs] ∧
      (rcComplete (rcRun s evs)).active = 1) ∧
    ((finalPrefs s.prefs evs).followed = [] →
      (rcComplete (rcRun s evs)).fetches = s.fetches ∧
      (rcComplete (rcRun s evs)).active = 0) := by
  have hrun := rcRun_inFlight evs s hin
  have hpre : ∀ pre suf : List RcEv, evs = pre ++ suf → (rcRun s pre).active = 1 := by
    intro pre suf hsplit
    rw [rcRun_inFlight pre s hin]
    exact ha
  by_cases hemp : (finalPrefs s.prefs evs).followed = []
  · have hcomp : rcComplete (rcRun s evs) =
        { s with inFlight := true, queued := false, active := 0,
                 prefs := finalPrefs s.prefs evs } := by
      rw [hrun]
      simp [rcComplete, rcCall, hq, hcall, List.isEmpty_iff, hemp]
    refine ⟨by rw [hrun], by rw [hrun]; simp [hq, hcall], hpre, ?_, ?_, ?_, ?_⟩
    · rw [hcomp]
    · rw [hcomp]
    · intro hne; exact absurd hemp hne
    · intro _; rw [hcomp]; exact ⟨rfl, rfl⟩
  · have hcomp : rcComplete (rcRun s evs) =
        { s with inFlight := true, queued := false, active := 1,
                 prefs := finalPrefs s.prefs evs,
                 fetches := s.fetches ++ [finalPrefs s.prefs evs] } := by
      rw [hrun]
      simp [rcComplete, rcCall, hq, hcall, List.isEmpty_iff, hemp]
    refine ⟨by rw [hrun], by rw [hrun]; simp [hq, hcall], hpre, ?_, ?_, ?_, ?_⟩
    · rw [hcomp]
    · rw [hcomp]
    · intro _; rw [hcomp]; exact ⟨rfl, rfl⟩
    · intro heq; exact absurd heq hemp

/-- Witness for refresh_collapse_spec: a filter write and a push-driven
call arrive while a refresh for followed game 33214 is executing; the
followed set stays nonempty, so the completion issues exactly one follow-up
fetch carrying the new snapshot. -/
theorem refresh_collapse_witness :
    (rcRun ⟨true, false, ⟨["33214"], 0⟩, [], 1⟩
      [.setPrefs ⟨["33214"], 7⟩, .call]).fetches = [] ∧
    (rcComplete (rcRun ⟨true, false, ⟨["33214"], 0⟩, [], 1⟩
      [.setPrefs ⟨["33214"], 7⟩, .call])).fetches = [⟨["33214"], 7⟩] := by
  have h := refresh_collapse_spec ⟨true, false, ⟨["33214"], 0⟩, [], 1⟩
    [.setPrefs ⟨["33214"], 7⟩, .call] rfl rfl rfl (by decide)
  exact ⟨h.1, (h.2.2.2.2.2.1 (by decide)).1⟩

/-!
Filter debounce (scheduleFilterRefresh / bindFilterHandlers).

Numeric filter inputs run: write the parsed value to state, save the cookie,
and (re)arm a single 250ms trailing timer whose callback calls
refreshStreams; the verifiedOnly checkbox instead calls refreshStreams
synchronously.  The timer timeline is modelled on edit timestamps: an armed
timer fires 250ms after its edit unless a later edit re-arms it first.
-/

/-- What a filter-control handler does synchronously, in order. -/
inductive UiAction where
  | setState
  | save
  | callRefresh
  | schedule
deriving Repr, DecidableEq

/-- The change handler of the verifiedOnly checkbox in bindFilterHandlers. -/
def verifiedChangeActions : List UiAction := [.setState, .save, .callRefresh]

/-- The input handler bindNumber installs on each numeric filter field. -/
def numericInputActions : List UiAction := [.setState, .save, .schedule]

/-- Fire times of refreshStreams produced by a sequence of numeric-edit
timestamps under the clearTimeout/setTimeout trailing debounce: an edit's
timer fires at edit + 250 unless the next edit arrives strictly earlier. -/
def debounceFireTimes : List Nat → List Nat
  | [] => []
  | [t] => [t + 250]
  | t1 :: t2 :: ts =>
    if t2 < t1 + 250 then debounceFireTimes (t2 :: ts)
    else (t1 + 250) :: debounceFireTimes (t2 :: ts)

/-- Counterexample to C9 as stated: the verifiedOnly filter field calls
refreshStreams synchronously from its change handler and never goes through
scheduleFilterRefresh, so not every filter-field edit is debounced. -/
theorem filter_debounce_counterexample :
    UiAction.callRefresh ∈ verifiedChangeActions ∧
    UiAction.schedule ∉ verifiedChangeActions := by decide

/-- C9 amended: numeric filter-field edits never call refreshStreams
synchronously, only arm the debounce timer, and any K consecutive edits each
falling within 250ms of the previous produce exactly one refresh, fired
250ms after the last edit. -/
theorem filter_debounce_amended (t : Nat) (ts : List Nat)
    (hburst : List.Chain (fun a b => b < a + 250) t ts) :
    debounceFireTimes (t :: ts) = [ts.getLastD t + 250] ∧
    UiAction.callRefresh ∉ numericInputActions ∧
    UiAction.schedule ∈ numericInputActions := by
  refine ⟨?_, by decide, by decide⟩
  induction ts generalizing t with
  | nil => rfl
  | cons t2 ts ih =>
    cases hburst with
    | cons hlt hrest =>
      have hrec := ih t2 hrest
      rw [show debounceFireTimes (t :: t2 :: ts) = debounceFireTimes (t2 :: ts) from by
        simp [debounceFireTimes, hlt]]
      rw [hrec, List.getLastD_cons]

/-- Witness for filter_debounce_amended: five keystrokes inside 200ms. -/
theorem filter_debounce_amended_witness :
    debounceFireTimes [0, 50, 100, 150, 200] = [450] :=
  (filter_debounce_amended 0 [50, 100, 150, 200] (by norm_num [List.chain_cons])).1

/-!
Layout Balancer (updateMasonryColumns / clampMasonryToUsedColumns).

updateMasonryColumns contains, between its root guard and the count
computation, the stray expression statement `Ratelimit-Reset`; evaluating it
dereferences the undefined identifier Ratelimit and throws a ReferenceError,
so whenever the container exists the function aborts before computing or
applying any column count.  The model returns the applied column count and
surfaces the throw through Except.
-/

/-- Card column width in px (columns-[320px]). -/
def MASONRY_COL_WIDTH : Int := 320

/-- Column gap in px (1rem). -/
def MASONRY_COL_GAP : Int := 16

/-- updateMasonryColumns from app.js: with no container it returns without
applying anything; with a container it evaluates the stray statement
`Ratelimit-Reset` and throws a ReferenceError before reaching the column
computation. -/
def updateMasonryColumns (rootPresent : Bool) (w cardCount : Int) :
    Except String (Option Int) :=
  if !rootPresent then .ok none
  else .error "ReferenceError: Ratelimit is not defined"

/-- The column formula on the lines after the stray statement (dead code at
runtime): count clamped to at least 0, fit = floor((w + gap)/(width + gap))
clamped to at least 1, columns = clamp(fit, 1, max(1, count)). -/
def masonryColsFormula (w cardCount : Int) : Int :=
  let count := max 0 cardCount
  let fit := max 1 (Int.fdiv (w + MASONRY_COL_GAP) (MASONRY_COL_WIDTH + MASONRY_COL_GAP))
  max 1 (min fit (max 1 count))

/-- clampMasonryToUsedColumns from app.js: with no rendered cards it leaves
the applied count; otherwise, when the applied count is set and exceeds the
number of distinct horizontal start-offsets in use, it shrinks the applied
count to that number. -/
def clampMasonryToUsedColumns (offsets : List Int) (current : Nat) : Nat :=
  match offsets with
  | [] => current
  | _ =>
    let used := max 1 offsets.dedup.length
    if current ≠ 0 ∧ used < current then used else current

/-- C8 evaluated at a concrete failing input: with the container present (a
1000px container, 5 cards) updateMasonryColumns throws the ReferenceError
raised by the stray `Ratelimit-Reset` statement instead of applying the
clamped column count the claim states (which would have been
masonryColsFormula 1000 5 = 3). -/
theorem masonry_bug_eval :
    updateMasonryColumns true 1000 5 = .error "ReferenceError: Ratelimit is not defined" ∧
    masonryColsFormula 1000 5 = 3 :=
  ⟨rfl, by decide⟩

/-!
Confirmation Gate (confirmDialog / _openConfirmModal / _closeConfirmModal).

The gate's globals are _confirmResolve (here resolveSlot: the index of the
promise the stored resolver would settle) and _confirmCloseTimer (here
closeTimer: the pending 200ms close timer with the result it will deliver;
its callback reads the resolver global at fire time).  Promises are listed
by creation index with their resolution (none while pending); a promise
resolver fires at most once, so a resolution is only written when none is
present.  `surface` says whether the modal/overlay/panel elements exist;
the class and focus manipulations carry no reconciliation state and are
elided.
-/

/-- Confirmation Gate state. -/
structure ConfirmState where
  surface : Bool
  resolveSlot : Option Nat
  closeTimer : Option Bool
  promises : List (Option Bool)
deriving Repr, DecidableEq

/-- Resolution of promise i with b, first resolution wins. -/
def resolveAt : List (Option Bool) → Nat → Bool → List (Option Bool)
  | [], _, _ => []
  | p :: ps, 0, b => (match p with | none => some b | some c => some c) :: ps
  | p :: ps, n + 1, b => p :: resolveAt ps n b

/-- The `if (_confirmResolve) _confirmResolve(b); _confirmResolve = null`
sequence shared by the missing-surface branch and the close-timer callback. -/
def doResolveSlot (s : ConfirmState) (b : Bool) : ConfirmState :=
  match s.resolveSlot with
  | none => s
  | some i => { s with promises := resolveAt s.promises i b, resolveSlot := none }

/-- _closeConfirmModal from app.js: with the surface missing it resolves the
stored resolver immediately; otherwise it plays the close transition and
replaces any pending close timer with a fresh 200ms timer carrying the
result. -/
def closeConfirmModal (s : ConfirmState) (b : Bool) : ConfirmState :=
  if !s.surface then doResolveSlot s b
  else { s with closeTimer := some b }

/-- _openConfirmModal from app.js: with the surface missing it returns
before doing anything; otherwise it cancels any pending close timer and
plays the open transition. -/
def openConfirmModal (s : ConfirmState) : ConfirmState :=
  if !s.surface then s
  else { s with closeTimer := none }

/-- confirmDialog from app.js: a pending confirmation is first closed with
false; then a fresh promise is created, its resolver stored (overwriting the
previous resolver reference), and the modal opened.  Returns the state and
the new promise's index. -/
def confirmDialog (s : ConfirmState) : ConfirmState × Nat :=
  let s1 := if s.resolveSlot.isSome then closeConfirmModal s false else s
  let p := s1.promises.length
  let s2 : ConfirmState :=
    { s1 with promises := s1.promises ++ [none], resolveSlot := some p }
  (openConfirmModal s2, p)

/-- Firing of the pending 200ms close timer: it hides the modal and resolves
whatever resolver is stored at that moment. -/
def fireCloseTimer (s : ConfirmState) : ConfirmState :=
  match s.closeTimer with
  | none => s
  | some b => doResolveSlot { s with closeTimer := none } b

/-- C4 evaluated at the failing input: two back-to-back confirmDialog calls
with the modal elements present.  The first call's promise (index 0) is
never resolved: confirmDialog only schedules a 200ms close timer for it, the
new call's promise executor overwrites the stored resolver, and
_openConfirmModal then cancels that timer, so after every pending timer has
run the first promise is still unresolved — not resolved with false before
the new prompt as the claim states. -/
theorem confirm_supersede_bug :
    (fireCloseTimer (confirmDialog (confirmDialog ⟨true, none, none, []⟩).1).1).promises =
      [none, none] ∧
    (fireCloseTimer (confirmDialog (confirmDialog ⟨true, none, none, []⟩).1).1).closeTimer =
      none := by decide

/-- Counterexample to C5 as stated: with the presentation surface missing, a
requested confirmation does not resolve immediately with any default — the
promise (index 0) is still pending right after the call, with no close timer
scheduled that could settle it. -/
theorem confirm_missing_surface_counterexample :
    (confirmDialog ⟨false, none, none, []⟩).1.promises = [none] ∧
    (confirmDialog ⟨false, none, none, []⟩).1.closeTimer = none ∧
    (confirmDialog ⟨false, none, none, []⟩).1.resolveSlot = some 0 := by decide

lemma resolveAt_get (ps : List (Option Bool)) (i : Nat) (b : Bool)
    (h : ps[i]? = some none) : (resolveAt ps i b)[i]? = some (some b) := by
  induction ps generalizing i with
  | nil => simp at h
  | cons p ps ih =>
    cases i with
    | zero =>
      simp at h
      simp [resolveAt, h]
    | succ n =>
      simp at h
      simpa [resolveAt] using ih n h

/-- C5 amended: with the presentation surface missing, requesting a
confirmation returns without error but leaves the new promise pending (no
default resolution, no pending timer change); the pending promise is only
settled when a dismissal or accept path later calls _closeConfirmModal,
whose missing-surface branch resolves it immediately with that path's result
value. -/
theorem confirm_missing_surface_spec (s : ConfirmState) (i : Nat) (b : Bool)
    (hsurf : s.surface = false) :
    (s.resolveSlot = none →
      (confirmDialog s).1.promises[(confirmDialog s).2]? = some none ∧
      (confirmDialog s).1.closeTimer = s.closeTimer ∧
      (confirmDialog s).1.resolveSlot = some (confirmDialog s).2) ∧
    (s.resolveSlot = some i → s.promises[i]? = some none →
      (closeConfirmModal s b).promises[i]? = some (some b) ∧
      (closeConfirmModal s b).resolveSlot = none) := by
  constructor
  · intro hslot
    have h1 : (if s.resolveSlot.isSome then closeConfirmModal s false else s) = s := by
      rw [hslot]; rfl
    simp only [confirmDialog, h1, openConfirmModal, hsurf]
    refine ⟨?_, rfl, rfl⟩
    simp
  · intro hslot hpend
    have hred : closeConfirmModal s b =
        { s with promises := resolveAt s.promises i b, resolveSlot := none } := by
      simp [closeConfirmModal, hsurf, doResolveSlot, hslot]
    rw [hred]
    exact ⟨resolveAt_get s.promises i b hpend, rfl⟩

/-- Witness for confirm_missing_surface_spec at a concrete surfaceless
state: a fresh request stays pending, and an Escape-style dismissal of a
pending confirmation resolves it with false at once. -/
theorem confirm_missing_surface_spec_witness :
    (confirmDialog ⟨false, none, none, []⟩).1.promises[(confirmDialog
        ⟨false, none, none, []⟩).2]? = some none ∧
    (closeConfirmModal ⟨false, some 0, none, [none]⟩ false).promises[(0 : Nat)]? =
      some (some false) := by
  refine ⟨((confirm_missing_surface_spec ⟨false, none, none, []⟩ 0 false rfl).1 rfl).1, ?_⟩
  exact ((confirm_missing_surface_spec ⟨false, some 0, none, [none]⟩ 0 false rfl).2
    rfl rfl).1

/-!
Reconciliation Engine, stream level (updateGameStreams / animateExitAndRemove).

A rendered stream row is its stable stream id, a node identity (distinct DOM
element), and its exiting flag (dataset.exiting).  A card holds the row list
in DOM order, the _streamsRenderVersion counter, and the pending timers: the
un-cancellable 280ms removal timer that animateExitAndRemove schedules
against a node, and the 320ms deferred reorder pass with its captured
version and stream array.  Timers fire in (deadline, scheduling-order)
order, as in the browser's single-threaded timer queue.
-/

/-- A rendered stream row. -/
structure Row where
  sid : String
  node : Nat
  exiting : Bool
deriving Repr, DecidableEq

/-- Pending timers of a card. -/
inductive RTimer where
  | rmv (fireAt : Nat) (node : Nat)
  | reorder (fireAt : Nat) (ver : Nat) (streams : List String)
deriving Repr, DecidableEq

/-- A game card's stream list state. -/
structure CardSim where
  rows : List Row
  version : Nat
  timers : List RTimer
  nextNode : Nat
deriving Repr, DecidableEq

/-- Deadline of a timer. -/
def timerAt : RTimer → Nat
  | .rmv t _ => t
  | .reorder t _ _ => t

/-- The fragment pass of the no-removals branch: for each desired id in
order, take the row the pre-pass snapshot map yields (last occurrence wins,
as Map.set overwrites), else the first matching row still in the list, else
create one; appendChild moves the row to the fragment's end wherever it
was. -/
def reorderNowGo (snapshot : List Row) :
    List String → List Row → List Row → Nat → List Row × Nat
  | [], listRows, frag, next => (listRows ++ frag, next)
  | sid :: rest, listRows, frag, next =>
    match (snapshot.filter (fun r => r.sid == sid)).getLast? with
    | some r =>
      reorderNowGo snapshot rest (listRows.filter (fun q => q.node ≠ r.node))
        (frag.filter (fun q => q.node ≠ r.node) ++ [r]) next
    | none =>
      match listRows.find? (fun r => r.sid == sid) with
      | some r =>
        reorderNowGo snapshot rest (listRows.filter (fun q => q.node ≠ r.node))
          (frag ++ [r]) next
      | none => reorderNowGo snapshot rest listRows (frag ++ [⟨sid, next, false⟩]) (next + 1)

/-- The rebuild pass of the deferred reconcile: for each desired id in
order, move the first matching row still in the list (exiting rows
included) to the fragment's end, else create one. -/
def rebuildGo : List String → List Row → List Row → Nat → List Row × Nat
  | [], listRows, frag, next => (listRows ++ frag, next)
  | sid :: rest, listRows, frag, next =>
    match listRows.find? (fun r => r.sid == sid) with
    | some r =>
      rebuildGo rest (listRows.filter (fun q => q.node ≠ r.node)) (frag ++ [r]) next
    | none => rebuildGo rest listRows (frag ++ [⟨sid, next, false⟩]) (next + 1)

/-- updateGameStreams from app.js at time `now`: bump the render version,
partition the currently rendered rows against the desired id set, update
kept rows in place and append freshly created rows, start exit sequences
(exiting flag plus a 280ms removal timer) for stale non-exiting rows, then
either reorder immediately (no stale rows) or schedule the 320ms deferred
reconcile carrying the bumped version and the stream array. -/
def updateGameStreams (now : Nat) (streams : List String) (c : CardSim) : CardSim :=
  let ver := c.version + 1
  let snapshot := c.rows
  let removals := snapshot.filter (fun r => !streams.contains r.sid && !r.exiting)
  let created := streams.foldl
    (fun (acc : List Row × Nat) sid =>
      if snapshot.any (fun r => r.sid == sid) then acc
      else (acc.1 ++ [⟨sid, acc.2, false⟩], acc.2 + 1))
    (snapshot, c.nextNode)
  let exitNodes := removals.map (fun r => r.node)
  let rows2 := created.1.map
    (fun r => if exitNodes.contains r.node then ⟨r.sid, r.node, true⟩ else r)
  let timers2 := c.timers ++ removals.map (fun r => RTimer.rmv (now + 280) r.node)
  if removals.isEmpty then
    let reordered := reorderNowGo snapshot streams rows2 [] created.2
    ⟨reordered.1, ver, timers2, reordered.2⟩
  else
    ⟨rows2, ver, timers2 ++ [RTimer.reorder (now + 320) ver streams], created.2⟩

/-- Firing one timer: the removal timer removes its node wherever it is (it
is never cancelled); the deferred reconcile does nothing when a newer
reconciliation has bumped the version, and otherwise force-removes
non-exiting rows whose id is no longer desired and rebuilds the desired
order. -/
def fireTimer (c : CardSim) (t : RTimer) : CardSim :=
  match t with
  | .rmv _ n => { c with rows := c.rows.filter (fun r => r.node ≠ n) }
  | .reorder _ ver streams =>
    if c.version ≠ ver then c
    else
      let keep := c.rows.filter (fun r => r.exiting || streams.contains r.sid)
      let rebuilt := rebuildGo streams keep [] c.nextNode
      { c with rows := rebuilt.1, nextNode := rebuilt.2 }

/-- The earliest pending timer (ties broken by scheduling order) and the
queue without it. -/
def pickEarliest : List RTimer → Option (RTimer × List RTimer)
  | [] => none
  | t :: ts =>
    match pickEarliest ts with
    | none => some (t, [])
    | some (u, rest) =>
      if timerAt t ≤ timerAt u then some (t, ts) else some (u, t :: rest)

/-- Fire up to `fuel` pending timers in deadline order. -/
def settleSteps (c : CardSim) : Nat → CardSim
  | 0 => c
  | n + 1 =>
    match pickEarliest c.timers with
    | none => c
    | some (t, rest) => settleSteps (fireTimer { c with timers := rest } t) n

/-- Fire every pending timer in deadline order (timers never schedule new
timers, so the queue length is enough fuel). -/
def settle (c : CardSim) : CardSim := settleSteps c c.timers.length

/-- Fire up to `fuel` timers whose deadline lies before `now`. -/
def fireDueSteps (c : CardSim) (now : Nat) : Nat → CardSim
  | 0 => c
  | n + 1 =>
    match pickEarliest c.timers with
    | none => c
    | some (t, rest) =>
      if timerAt t < now then fireDueSteps (fireTimer { c with timers := rest } t) now n
      else c

/-- Fire every timer due strictly before `now`. -/
def fireDue (c : CardSim) (now : Nat) : CardSim := fireDueSteps c now c.timers.length

/-- Run a card through timestamped payload arrivals (in ascending time, each
preceded by the timers due by then) and let all remaining animations and
deferred passes settle. -/
def runScenario (arrivals : List (Nat × List String)) : CardSim :=
  settle (arrivals.foldl (fun c a => updateGameStreams a.1 a.2 (fireDue c a.1)) ⟨[], 0, [], 0⟩)

/-- Positive check of the model against Scenario 3 of the spec: streams
[a, b] followed by [b, c] settle to exactly [b, c] in order, with b's node
identity preserved (node 1 from the first payload). -/
lemma scenario3_eval :
    (runScenario [(0, ["a", "b"]), (100, ["b", "c"])]).rows =
      [⟨"b", 1, false⟩, ⟨"c", 2, false⟩] := by decide

/-- C1 evaluated at the failing input: stream s1 is rendered (payload at
t=0), removed (payload at t=10, starting its exit and scheduling removal at
t=290 and the deferred pass at t=330), and reappears at t=20, before the
deferred pass fires.  The re-appearing id reuses the still-exiting row, the
280ms removal timer from the exit sequence is never cancelled and deletes
that reused row, and the deferred pass (correctly) does nothing because of
the version check — so after everything settles there are zero live rows
for s1, not exactly one as the claim states. -/
theorem generation_safety_bug :
    ((runScenario [(0, ["s1"]), (10, []), (20, ["s1"])]).rows.filter
      (fun r => r.sid == "s1")).length = 0 ∧
    (runScenario [(0, ["s1"]), (10, []), (20, ["s1"])]).timers = [] := by decide

/-- C3 evaluated at a failing input: game list [a, b], then [b], then
[a, b] again before the deferred pass fires.  After all animations and
deferred passes complete the latest payload contains stream a, yet zero
rendered rows for a remain (the reused exiting row was deleted by its
un-cancelled exit-removal timer), violating exactly-one-node-per-id. -/
theorem uniqueness_bug :
    ((runScenario [(0, ["a", "b"]), (10, ["b"]), (20, ["a", "b"])]).rows.filter
      (fun r => r.sid == "a")).length = 0 ∧
    ((runScenario [(0, ["a", "b"]), (10, ["b"]), (20, ["a", "b"])]).rows.filter
      (fun r => r.sid == "b")).length = 1 ∧
    (runScenario [(0, ["a", "b"]), (10, ["b"]), (20, ["a", "b"])]).timers = [] := by decide

end Streamerphile
